import Mathlib

/-!
# Verification of the pesto disk-diagnostics server against its specification

Shallow embedding of the two source files of the repository:

* `pesto_server.py` — the protocol server: `Disk` records with lazy inventory
  identity resolution (`_get_code`, `update_if_needed`), the `CommandRunner`
  command executor (`exec_command`, `run`, `get_smartctl`,
  `get_disks_to_send`, `update_disk_if_needed`), the `TurboProtocol`
  delimiter handling (`lineReceived`, `send_msg`), and `get_disks_win`.
* `pestello.py` — the offline classification tool (`get_files`, the
  deduplication/disposition part of `parse_file`, CSV header construction).

Python exceptions are modelled as explicit error values; methods that mutate
the object and may raise return the mutated object together with an optional
raised error, so that "field was cleared before the raise" is visible.
Machine-level concerns (actual sockets, subprocesses, JSON byte encoding)
are abstracted: external collaborators are oracle functions supplied as
inputs.
-/

namespace Pesto

/-- Python truthiness of an optional string: `None` and `""` are falsy
(this is the meaning of `if not self._code` / `if self._code` in the source). -/
def pyTruthy : Option String → Bool
  | none => false
  | some s => !(s == "")

/-- The Python exceptions the embedded code can raise.
`manuallyFixable` is the server's `ErrorThatCanBeManuallyFixed`. -/
inductive PyError where
  | manuallyFixable (msg : String)
  | keyError (key : String)
  | typeError (msg : String)
  | indexError (msg : String)
  | exception (msg : String)
  deriving DecidableEq

/-- Interface of the inventory client (`pytarallo.Tarallo`) as used by the
server: `get_codes_by_feature` and `get_item` (item detail modelled as an
opaque string payload). Behaviour is an oracle supplied per scenario. -/
structure Tarallo where
  getCodesByFeature : String → String → List String
  getItem : String → Nat → String

/-- A disk record (`Disk` in `pesto_server.py`): the raw lsblk attribute
dictionary (modelled as an insertion-ordered association list of string
fields), the device path, the optional resolved inventory code, the
optional cached item detail, and the optional inventory client. -/
structure Disk where
  lsblk : List (String × String)
  path : String
  code : Option String
  item : Option String
  tarallo : Option Tarallo

/-- Serial normalization: `if sn.startswith('WD-'): sn = sn[3:]`, modelled at
character level (serials are ASCII, so character slicing coincides with the
source's slicing). -/
def normalizeSn (sn : String) : String :=
  if "WD-".data.isPrefixOf sn.data then String.mk (sn.data.drop 3) else sn

/-- The duplicate-codes message raised by `_get_code` in strict mode. -/
def dupMsg (path : String) (codes : List String) (sn : String) : String :=
  "Duplicate codes for " ++ path ++ ": " ++ String.intercalate " " codes ++ ", S/N is " ++ sn

/-- `Disk._get_code(stop_on_error)`. Returns the mutated record together with
the exception raised, if any.  Faithful points: with no inventory client the
code is cleared and the method returns; with the `serial` key missing the code
is cleared first, then strict mode raises `ErrorThatCanBeManuallyFixed` while
non-strict mode falls through to `sn = self._lsblk["serial"]`, which raises
`KeyError`; with an ambiguous lookup (more than one code) the code is cleared
and only strict mode raises. -/
def Disk.getCode (d : Disk) (stopOnError : Bool) : Disk × Option PyError :=
  match d.tarallo with
  | none => ({ d with code := none }, none)
  | some t =>
    match d.lsblk.lookup "serial" with
    | none =>
      if stopOnError then
        ({ d with code := none },
          some (.manuallyFixable ("Disk " ++ d.path ++ " has no serial number")))
      else
        ({ d with code := none }, some (.keyError "serial"))
    | some sn0 =>
      if (t.getCodesByFeature "sn" (normalizeSn sn0)).length ≤ 0 then
        ({ d with code := none }, none)
      else if (t.getCodesByFeature "sn" (normalizeSn sn0)).length = 1 then
        ({ d with code := (t.getCodesByFeature "sn" (normalizeSn sn0)).head? }, none)
      else
        ({ d with code := none },
          if stopOnError then
            some (.manuallyFixable
              (dupMsg d.path (t.getCodesByFeature "sn" (normalizeSn sn0)) (normalizeSn sn0)))
          else none)

/-- `Disk._get_item`: caches the item detail when an inventory client is
present and the code is truthy, otherwise clears it. -/
def Disk.fetchItem (d : Disk) : Disk :=
  match d.tarallo, d.code with
  | some t, some c =>
    if c == "" then { d with item := none } else { d with item := some (t.getItem c 0) }
  | _, _ => { d with item := none }

/-- `Disk.__init__`: requires a `path` field (the source raises on its absence;
building that `RuntimeError` message concatenates `str + dict`, itself a
`TypeError`, so construction fails either way), then runs `_get_code(False)`
followed by `_get_item`. Any exception escaping aborts construction. -/
def Disk.init (lsblk : List (String × String)) (tarallo : Option Tarallo) :
    Except PyError Disk :=
  match lsblk.lookup "path" with
  | none => .error (.typeError "lsblk did not provide path for this disk")
  | some p =>
    let d0 : Disk := ⟨lsblk, p, none, none, tarallo⟩
    match d0.getCode false with
    | (_, some e) => .error e
    | (d1, none) => .ok d1.fetchItem

/-- `Disk.update_if_needed`: re-runs resolution (strict mode) only while the
cached code is falsy, then refreshes the item detail; an exception from
resolution propagates before `_get_item` runs. -/
def Disk.updateIfNeeded (d : Disk) : Disk × Option PyError :=
  if pyTruthy d.code then (d.fetchItem, none)
  else
    match d.getCode true with
    | (d1, some e) => (d1, some e)
    | (d1, none) => (d1.fetchItem, none)

/-- JSON-serializable Python values appearing in response payloads. -/
inductive PyVal where
  | pnone
  | pstr (s : String)
  | pint (n : Int)
  | pbool (b : Bool)
  | plist (xs : List PyVal)
  | pdict (xs : List (String × PyVal))

/-- A response delivered on a connection: the response token (`cmd`) and the
optional encoded payload (`param`); `send_msg` writes `cmd` alone when the
payload is absent, else `cmd <json>`. -/
structure Response where
  cmd : String
  param : Option PyVal

/-- A payload value as passed to `send_msg` before encoding: either a
JSON-serializable value, or a `{message, disk}` dictionary carrying the raw
`Disk` object (as at pesto_server.py line 170). -/
inductive Payload where
  | jsonable (v : PyVal)
  | withDiskObj (message : String) (disk : Disk)

/-- `CommandRunner._encode_param` (`json.dumps`): a JSON-serializable value
encodes; a payload containing a raw `Disk` object raises `TypeError`. -/
def encodeParam : Payload → Except PyError PyVal
  | .jsonable v => .ok v
  | .withDiskObj _ _ => .error (.typeError "Object of type Disk is not JSON serializable")

/-- `CommandRunner.send_msg`: when the originating connection has already
closed, the response is discarded with a log line and nothing is raised;
otherwise the payload (if any) is JSON-encoded — an encoding failure raises
out of `send_msg` — and the encoded response is handed to the reactor for
delivery. The `ok` value lists the responses delivered. -/
def sendMsg (connOpen : Bool) (cmd : String) (param : Option Payload) :
    Except PyError (List Response) :=
  if connOpen then
    match param with
    | none => .ok [⟨cmd, none⟩]
    | some pl =>
      match encodeParam pl with
      | .ok v => .ok [⟨cmd, some v⟩]
      | .error e => .error e
  else .ok []

/-- `CommandRunner.update_disk_if_needed`: runs `update_if_needed` under the
registry lock; a caught `ErrorThatCanBeManuallyFixed` is surfaced via
`send_msg` with a `{message, disk}` payload holding the raw `Disk` object —
with the connection open that payload fails to JSON-encode, and the resulting
`TypeError` is raised inside the except handler, escaping
`update_disk_if_needed`; with the connection closed the message is discarded.
Every other exception from `update_if_needed` is swallowed. Returns the
refreshed record, the responses actually delivered, and the escaping
exception, if any. -/
def updateDiskIfNeeded (connOpen : Bool) (d : Disk) :
    Disk × List Response × Option PyError :=
  match d.updateIfNeeded with
  | (d1, none) => (d1, [], none)
  | (d1, some (.manuallyFixable m)) =>
    match sendMsg connOpen "error_that_can_be_manually_fixed"
        (some (.withDiskObj m d1)) with
    | .ok rs => (d1, rs, none)
    | .error e => (d1, [], some e)
  | (d1, some _) => (d1, [], none)

/-- `Disk.update_status`: pushes the smart-data status to the inventory only
when both the inventory client and a truthy code are present; `pushFails`
says whether the inventory call itself would raise if made. With a falsy code
or no client the method is a no-op that cannot raise. -/
def updateStatus (d : Disk) (pushFails : Bool) : Option PyError :=
  if d.tarallo.isSome && pyTruthy d.code then
    if pushFails then some (.exception "update_item_features failed") else none
  else none

/-! ## Auxiliary lemmas about the disk record -/

lemma Disk.fetchItem_code (d : Disk) : d.fetchItem.code = d.code := by
  unfold Disk.fetchItem
  rcases d.tarallo with _ | t <;> rcases h : d.code with _ | c <;> simp [h]
  split <;> simp [h]

lemma Disk.fetchItem_lsblk (d : Disk) : d.fetchItem.lsblk = d.lsblk := by
  unfold Disk.fetchItem
  rcases d.tarallo with _ | t <;> rcases h : d.code with _ | c <;> simp [h]
  split <;> simp [h]

/-! ## Concrete scenario: an ambiguous serial (two inventory matches) -/

/-- An inventory in which every serial lookup returns two codes. -/
def tDup : Tarallo := ⟨fun _ _ => ["A1", "B2"], fun c _ => c⟩

/-- lsblk output for a disk with path and serial. -/
def lsDup : List (String × String) := [("path", "/dev/sda"), ("serial", "S123")]

/-- The record produced by eager construction from `lsDup` against `tDup`. -/
def dDup : Disk := ⟨lsDup, "/dev/sda", none, none, some tDup⟩

/-! ## C4 — ambiguous lookup never assigns a code -/

/-- C4: for every identity resolution in which the inventory lookup returns
more than one matching code, `_get_code` never assigns a code to the record:
the cached code is cleared, and the raised condition is either nothing
(non-strict mode) or the explicitly surfaced manually-fixable error (strict
mode) — never a silently chosen code from the ambiguous set. -/
theorem ambiguous_lookup_never_assigns_code (d : Disk) (t : Tarallo) (sn0 : String)
    (stop : Bool) (ht : d.tarallo = some t) (hs : d.lsblk.lookup "serial" = some sn0)
    (hdup : 2 ≤ (t.getCodesByFeature "sn" (normalizeSn sn0)).length) :
    (d.getCode stop).1.code = none ∧
    (d.getCode stop).2 =
      (if stop then
        some (.manuallyFixable
          (dupMsg d.path (t.getCodesByFeature "sn" (normalizeSn sn0)) (normalizeSn sn0)))
      else none) := by
  have h0 : ¬ (t.getCodesByFeature "sn" (normalizeSn sn0)).length ≤ 0 := by omega
  have h1 : ¬ (t.getCodesByFeature "sn" (normalizeSn sn0)).length = 1 := by omega
  unfold Disk.getCode
  rw [ht, hs]
  simp [h0, h1]

/-- Witness for C4 at the concrete ambiguous scenario. -/
theorem ambiguous_lookup_never_assigns_code_witness :
    (dDup.getCode true).1.code = none ∧
    (dDup.getCode true).2 =
      some (.manuallyFixable "Duplicate codes for /dev/sda: A1 B2, S/N is S123") := by
  have h := ambiguous_lookup_never_assigns_code dDup tDup "S123" true rfl rfl (by decide)
  exact ⟨h.1, by rw [h.2]; decide⟩

/-! ## C5 — resolution is idempotent on an already-resolved record -/

/-- C5: `update_if_needed` on a record whose inventory code is already set
never re-runs resolution: the cached code is unchanged and no exception is
raised (only the item detail is refreshed). -/
theorem update_if_needed_idempotent (d : Disk) (h : pyTruthy d.code = true) :
    (d.updateIfNeeded).1.code = d.code ∧ (d.updateIfNeeded).2 = none := by
  unfold Disk.updateIfNeeded
  rw [h]
  simp [Disk.fetchItem_code]

/-- Witness for C5: a record with code `"X1"` keeps it across
`update_if_needed`. -/
theorem update_if_needed_idempotent_witness :
    ((Disk.mk [] "/dev/sdz" (some "X1") none none).updateIfNeeded).1.code = some "X1" ∧
    ((Disk.mk [] "/dev/sdz" (some "X1") none none).updateIfNeeded).2 = none :=
  update_if_needed_idempotent (Disk.mk [] "/dev/sdz" (some "X1") none none) (by decide)

/-! ## C9 — missing serial raises KeyError even in non-strict mode -/

/-- C9: with inventory integration enabled, `_get_code(False)` on enumeration
data lacking a `serial` field clears the code but then unconditionally reads
the missing key, raising `KeyError`; consequently eager construction
(`__init__`) of such a disk always fails rather than leaving the record
benignly unresolved. -/
theorem missing_serial_keyerror (d : Disk) (lsblk : List (String × String))
    (t t' : Tarallo) (p : String)
    (ht : d.tarallo = some t) (hd : d.lsblk.lookup "serial" = none)
    (hpath : lsblk.lookup "path" = some p) (hser : lsblk.lookup "serial" = none) :
    (d.getCode false).1.code = none ∧
    (d.getCode false).2 = some (.keyError "serial") ∧
    Disk.init lsblk (some t') = .error (.keyError "serial") := by
  refine ⟨?_, ?_, ?_⟩
  · unfold Disk.getCode
    rw [ht, hd]
    rfl
  · unfold Disk.getCode
    rw [ht, hd]
    rfl
  · unfold Disk.init Disk.getCode
    simp only [hpath, hser]
    rfl

/-- Witness for C9 at a concrete serial-less disk. -/
theorem missing_serial_keyerror_witness :
    ((Disk.mk [("path", "/dev/sdb")] "/dev/sdb" none none (some tDup)).getCode false).1.code
        = none ∧
    ((Disk.mk [("path", "/dev/sdb")] "/dev/sdb" none none (some tDup)).getCode false).2
        = some (.keyError "serial") ∧
    Disk.init [("path", "/dev/sdb")] (some tDup) = .error (.keyError "serial") :=
  missing_serial_keyerror (Disk.mk [("path", "/dev/sdb")] "/dev/sdb" none none (some tDup))
    [("path", "/dev/sdb")] tDup tDup "/dev/sdb" rfl rfl rfl rfl

/-! ## C3 — where ambiguity raises: eager construction vs lazy re-resolution -/

/-- C3 counterexample: at a concrete ambiguous serial, initial eager
construction (`__init__`, which calls `_get_code(False)`) succeeds silently —
nothing is surfaced to the requesting connection — while lazy re-resolution
(`update_if_needed`, which calls `_get_code(True)`) raises the
manually-fixable condition. This is the reverse of the claimed behaviour. -/
theorem ambiguity_eager_lazy_cex :
    Disk.init lsDup (some tDup) = .ok dDup ∧
    dDup.code = none ∧
    (dDup.updateIfNeeded).2 =
      some (.manuallyFixable "Duplicate codes for /dev/sda: A1 B2, S/N is S123") :=
  ⟨rfl, rfl, rfl⟩

/-- C3 (amended): an ambiguous identity during initial eager construction is
left unresolved with no exception raised and nothing surfaced (the code stays
absent); during lazy re-resolution it raises the manually-fixable condition,
which `update_disk_if_needed` catches and attempts to surface as a distinctly
tagged `error_that_can_be_manually_fixed` response — but the attempt never
delivers the message: with the connection open, JSON-encoding the payload
(which contains the raw disk object) raises `TypeError`, which escapes the
handler and aborts the command invocation with nothing sent; with the
connection closed the message is discarded. -/
theorem ambiguity_eager_silent_lazy_raises (lsblk : List (String × String))
    (t : Tarallo) (p sn0 : String)
    (hpath : lsblk.lookup "path" = some p)
    (hser : lsblk.lookup "serial" = some sn0)
    (hdup : 2 ≤ (t.getCodesByFeature "sn" (normalizeSn sn0)).length) :
    Disk.init lsblk (some t) = .ok ⟨lsblk, p, none, none, some t⟩ ∧
    (Disk.updateIfNeeded ⟨lsblk, p, none, none, some t⟩).2 =
      some (.manuallyFixable
        (dupMsg p (t.getCodesByFeature "sn" (normalizeSn sn0)) (normalizeSn sn0))) ∧
    updateDiskIfNeeded true ⟨lsblk, p, none, none, some t⟩ =
      (⟨lsblk, p, none, none, some t⟩, [],
        some (.typeError "Object of type Disk is not JSON serializable")) ∧
    updateDiskIfNeeded false ⟨lsblk, p, none, none, some t⟩ =
      (⟨lsblk, p, none, none, some t⟩, [], none) := by
  have h0 : ¬ (t.getCodesByFeature "sn" (normalizeSn sn0)).length ≤ 0 := by omega
  have h1 : ¬ (t.getCodesByFeature "sn" (normalizeSn sn0)).length = 1 := by omega
  have hup : Disk.updateIfNeeded ⟨lsblk, p, none, none, some t⟩ =
      (⟨lsblk, p, none, none, some t⟩, some (.manuallyFixable
        (dupMsg p (t.getCodesByFeature "sn" (normalizeSn sn0)) (normalizeSn sn0)))) := by
    unfold Disk.updateIfNeeded
    simp only [pyTruthy, Bool.false_eq_true, if_false]
    unfold Disk.getCode
    simp only [hser, h0, h1, if_false, ite_false, if_true]
  refine ⟨?_, by rw [hup], ?_, ?_⟩
  · unfold Disk.init
    rw [hpath]
    unfold Disk.getCode
    simp only [hser, h0, h1, if_false, ite_false]
    unfold Disk.fetchItem
    simp
  · unfold updateDiskIfNeeded
    rw [hup]
    rfl
  · unfold updateDiskIfNeeded
    rw [hup]
    rfl

/-- Witness for the amended C3 at the concrete ambiguous scenario. -/
theorem ambiguity_eager_silent_lazy_raises_witness :
    Disk.init lsDup (some tDup) = .ok ⟨lsDup, "/dev/sda", none, none, some tDup⟩ ∧
    (Disk.updateIfNeeded ⟨lsDup, "/dev/sda", none, none, some tDup⟩).2 =
      some (.manuallyFixable
        (dupMsg "/dev/sda" (tDup.getCodesByFeature "sn" (normalizeSn "S123"))
          (normalizeSn "S123"))) ∧
    updateDiskIfNeeded true ⟨lsDup, "/dev/sda", none, none, some tDup⟩ =
      (⟨lsDup, "/dev/sda", none, none, some tDup⟩, [],
        some (.typeError "Object of type Disk is not JSON serializable")) ∧
    updateDiskIfNeeded false ⟨lsDup, "/dev/sda", none, none, some tDup⟩ =
      (⟨lsDup, "/dev/sda", none, none, some tDup⟩, [], none) :=
  ambiguity_eager_silent_lazy_raises lsDup tDup "/dev/sda" "S123" rfl rfl (by decide)

/-! ## Protocol listener: per-connection delimiter detection (`TurboProtocol`) -/

/-- Line delimiter convention of a connection: `\n` or `\r\n`. -/
inductive Delim where
  | lf
  | crlf
  deriving DecidableEq

/-- The delimiter-relevant state of `TurboProtocol`: the current delimiter and
whether the first line has fixed it (`self.delimiter`,
`self._delimiter_found`). -/
structure ProtoState where
  delimiter : Delim
  delimiterFound : Bool
  deriving DecidableEq

/-- `TurboProtocol.__init__`: delimiter starts as `\n`, not yet fixed. -/
def protoInit : ProtoState := ⟨.lf, false⟩

/-- The test `len(line) > 0 and line[-1] == '\r'` on a decoded line (twisted
strips the `\n` terminator, so a `\r\n` client leaves a trailing `\r`). -/
def endsWithCR (l : String) : Bool := l.data.getLast? == some '\r'

/-- Delimiter handling of `TurboProtocol.lineReceived`: on the first decoded
line the delimiter is fixed (to `\r\n` when the line ends with `\r`, else it
stays `\n`); afterwards the state is untouched. -/
def lineReceivedDelim (st : ProtoState) (l : String) : ProtoState :=
  if st.delimiterFound then st
  else if endsWithCR l then ⟨.crlf, true⟩ else ⟨st.delimiter, true⟩

/-- `TurboProtocol.send_msg`: a response is written with the connection's
current delimiter (`sendLine` appends `self.delimiter`); if the delimiter is
not yet known the response is dropped with a warning. The output records
which delimiter every written response used. -/
def protoSend (st : ProtoState) (resp : String) : List (String × Delim) :=
  if st.delimiterFound then [(resp, st.delimiter)] else []

/-- Events visible to a connection's protocol object: a decoded inbound line,
or an outbound response handed over for writing. -/
inductive ProtoEv where
  | line (l : String)
  | send (resp : String)

/-- One protocol step: inbound lines update the delimiter state, outbound
sends leave it unchanged and may emit a delimited response. -/
def protoStep (st : ProtoState) : ProtoEv → ProtoState × List (String × Delim)
  | .line l => (lineReceivedDelim st l, [])
  | .send r => (st, protoSend st r)

/-- Run a connection through a sequence of events, collecting every written
response together with the delimiter it was written with. -/
def protoRun (st : ProtoState) : List ProtoEv → ProtoState × List (String × Delim)
  | [] => (st, [])
  | e :: es =>
    let so := protoStep st e
    let rest := protoRun so.1 es
    (rest.1, so.2 ++ rest.2)

/-- The delimiter mode fixed by the trailing bytes of the first line. -/
def firstLineDelim (l : String) : Delim := if endsWithCR l then .crlf else .lf

lemma protoStep_fixed (d : Delim) (e : ProtoEv) :
    (protoStep ⟨d, true⟩ e).1 = ⟨d, true⟩ ∧
    ((protoStep ⟨d, true⟩ e).2).all (fun p => p.2 == d) = true := by
  cases e with
  | line l => exact ⟨rfl, rfl⟩
  | send r =>
    refine ⟨rfl, ?_⟩
    show (([(r, d)] : List (String × Delim)).all fun p => p.2 == d) = true
    simp

lemma protoRun_fixed (evs : List ProtoEv) (d : Delim) :
    (protoRun ⟨d, true⟩ evs).1 = ⟨d, true⟩ ∧
    ((protoRun ⟨d, true⟩ evs).2).all (fun p => p.2 == d) = true := by
  induction evs with
  | nil => exact ⟨rfl, rfl⟩
  | cons e es ih =>
    have hs := protoStep_fixed d e
    simp only [protoRun, hs.1, List.all_append]
    exact ⟨ih.1, by simp [hs.2, ih.2]⟩

/-- C2: for every connection, the delimiter mode is fixed by the trailing
bytes of the first received line (`\r\n` when that line ends with a carriage
return, else `\n`), every response subsequently written on the connection
uses exactly that delimiter, and the mode never changes for the connection's
lifetime. -/
theorem delimiter_mode_fixed (l : String) (evs : List ProtoEv) :
    (protoRun protoInit (.line l :: evs)).1 = ⟨firstLineDelim l, true⟩ ∧
    ((protoRun protoInit (.line l :: evs)).2).all
      (fun p => p.2 == firstLineDelim l) = true := by
  have hfirst : lineReceivedDelim protoInit l = ⟨firstLineDelim l, true⟩ := by
    unfold lineReceivedDelim protoInit firstLineDelim
    cases h : endsWithCR l <;> simp [h]
  have h := protoRun_fixed evs (firstLineDelim l)
  refine ⟨?_, ?_⟩
  · show (protoRun (lineReceivedDelim protoInit l) evs).1 = ⟨firstLineDelim l, true⟩
    rw [hfirst]
    exact h.1
  · show (([] ++ (protoRun (lineReceivedDelim protoInit l) evs).2).all
      (fun p => p.2 == firstLineDelim l)) = true
    rw [hfirst]
    simpa using h.2

/-! ## Command executor (`CommandRunner`) -/

/-- The behaviour of the three command bodies with side effects, supplied as
oracles: each either returns a payload or raises. This abstracts
`get_smartctl`, `get_disks_to_send` and `get_disks_win` as units whose
internals are modelled separately. -/
structure ExecEnv where
  smartctl : String → Except PyError PyVal
  getDisks : Except PyError PyVal
  getDisksWin : Except PyError PyVal

/-- Boolean success test on a fallible result. -/
def exceptOk {α : Type} : Except PyError α → Bool
  | .ok _ => true
  | .error _ => false

/-- `CommandRunner.exec_command`: dispatch on the command token, then one
`send_msg` with the (possibly overwritten) token and the payload. `ping`
overwrites the token to `pong` with no payload; an unrecognized token is
overwritten to `error` with a `{message, command}` payload. An exception from
a command body propagates (no send happens). `exit` never reaches the
executor: `lineReceived` closes the connection instead of dispatching. -/
def execCommand (env : ExecEnv) (cmd args : String) : Except PyError Response :=
  if cmd = "smartctl" then
    (env.smartctl args).map (fun p => ⟨cmd, some p⟩)
  else if cmd = "get_disks" then
    env.getDisks.map (fun p => ⟨cmd, some p⟩)
  else if cmd = "get_disks_win" then
    env.getDisksWin.map (fun p => ⟨cmd, some p⟩)
  else if cmd = "ping" then
    .ok ⟨"pong", none⟩
  else
    .ok ⟨"error", some (.pdict [("message", .pstr "Unrecognized command"),
                                ("command", .pstr cmd)])⟩

/-- `CommandRunner.run`: executes the command in its own thread; any
exception (`BaseException`) is caught and logged — and nothing else happens:
the thread unregisters and dies. The returned list is every response the
invocation delivered to the originating (open) connection. -/
def runThread (env : ExecEnv) (cmd args : String) : List Response :=
  match execCommand env cmd args with
  | .ok r => [r]
  | .error _ => []

/-- An environment whose `get_disks` body raises an internal fault. -/
def envFault : ExecEnv :=
  ⟨fun _ => .ok .pnone, .error (.keyError "serial"), .ok .pnone⟩

/-- An environment in which every command body succeeds. -/
def envOk : ExecEnv :=
  ⟨fun _ => .ok .pnone, .ok (.plist []), .ok .pnone⟩

/-- C1 counterexample: a `get_disks` invocation whose body raises an internal
fault (here the `KeyError` of a serial-less disk) yields zero responses — the
fault is caught and logged by `run`, but it is not converted to an `error`
response, so the reply owed to the connection is never produced. -/
theorem command_fault_no_reply_cex :
    execCommand envFault "get_disks" "" = .error (.keyError "serial") ∧
    runThread envFault "get_disks" "" = [] :=
  ⟨rfl, rfl⟩

/-- C1 (amended): every dispatched command whose body completes without an
internal fault produces exactly one response (bare `pong` for `ping`, the
structured `error` response for unrecognized commands); when the body raises,
the fault is caught — `run` returns normally, so the listener and other
connections survive — but no response at all is produced for that
invocation. -/
theorem command_reply_discipline (env : ExecEnv) (cmd args : String) :
    ((∀ a, exceptOk (env.smartctl a) = true) → exceptOk env.getDisks = true →
      exceptOk env.getDisksWin = true → (runThread env cmd args).length = 1) ∧
    (∀ e, execCommand env cmd args = .error e → runThread env cmd args = []) := by
  constructor
  · intro hs hg hw
    unfold runThread execCommand
    by_cases h1 : cmd = "smartctl"
    · have := hs args
      simp only [h1, if_true]
      cases hc : env.smartctl args with
      | ok v => rfl
      | error e => rw [hc] at this; simp [exceptOk] at this
    · by_cases h2 : cmd = "get_disks"
      · simp only [h1, h2, if_false, if_true]
        cases hc : env.getDisks with
        | ok v => rfl
        | error e => rw [hc] at hg; simp [exceptOk] at hg
      · by_cases h3 : cmd = "get_disks_win"
        · simp only [h1, h2, h3, if_false, if_true]
          cases hc : env.getDisksWin with
          | ok v => rfl
          | error e => rw [hc] at hw; simp [exceptOk] at hw
        · by_cases h4 : cmd = "ping" <;> simp [h1, h2, h3, h4]
  · intro e he
    unfold runThread
    rw [he]

/-- Witness for C1 (amended): `ping` yields exactly one response when bodies
are healthy, and a faulted `get_disks` yields none. -/
theorem command_reply_discipline_witness :
    (runThread envOk "ping" "").length = 1 ∧
    runThread envFault "get_disks" "" = [] :=
  ⟨(command_reply_discipline envOk "ping" "").1 (fun _ => rfl) rfl rfl,
   (command_reply_discipline envFault "get_disks" "").2 (.keyError "serial") rfl⟩

/-! ## `smartctl` command (`CommandRunner.get_smartctl`) -/

/-- `get_smartctl_status`: placeholder status computation, always `'old'`. -/
def getSmartctlStatus (_output : String) : String := "old"

/-- The `smartctl` result payload
`{disk, status, updated, exitcode, output, stderr}`. -/
structure SmartPayload where
  disk : String
  status : Option String
  updated : Bool
  exitcode : Int
  output : String
  stderr : String
  deriving DecidableEq

/-- Inputs to one `get_smartctl` call: the subprocess result (exit code,
stdout, stderr), the registry entry for the device (`none` = path not in the
registry; `some none` = path present but the record is still `None`), and
whether the inventory call behind `update_status` would raise if made. -/
structure SmartEnv where
  exitcode : Int
  output : String
  stderr : String
  tracked : Option (Option Disk)
  pushFails : Bool

/-- `CommandRunner.get_smartctl`: on exit code 0 the placeholder status is
computed and, when the device is tracked by a record, `update_disk_if_needed`
runs first — an exception escaping it (the encoding `TypeError` of the
manually-fixable surfacing path) aborts `get_smartctl` before any payload is
built — and then the status push is attempted on the refreshed record:
`updated` becomes true only if the push does not raise. A `None` registry
entry makes both the refresh and the push raise `AttributeError`, each caught
by its handler, leaving `updated` false. On nonzero exit the status is `None`
and nothing is pushed. -/
def getSmartctl (connOpen : Bool) (env : SmartEnv) (dev : String) :
    Except PyError SmartPayload :=
  if env.exitcode = 0 then
    match env.tracked with
    | none => .ok ⟨dev, some (getSmartctlStatus env.output), false,
                   env.exitcode, env.output, env.stderr⟩
    | some none => .ok ⟨dev, some (getSmartctlStatus env.output), false,
                        env.exitcode, env.output, env.stderr⟩
    | some (some d) =>
      match updateDiskIfNeeded connOpen d with
      | (_, _, some e) => .error e
      | (d1, _, none) =>
        match updateStatus d1 env.pushFails with
        | some _ => .ok ⟨dev, some (getSmartctlStatus env.output), false,
                         env.exitcode, env.output, env.stderr⟩
        | none => .ok ⟨dev, some (getSmartctlStatus env.output), true,
                       env.exitcode, env.output, env.stderr⟩
  else
    .ok ⟨dev, none, false, env.exitcode, env.output, env.stderr⟩

/-- JSON encoding of the `smartctl` payload dictionary, in the source's key
order. -/
def SmartPayload.toVal (p : SmartPayload) : PyVal :=
  .pdict [("disk", .pstr p.disk),
          ("status", match p.status with | none => .pnone | some s => .pstr s),
          ("updated", .pbool p.updated),
          ("exitcode", .pint p.exitcode),
          ("output", .pstr p.output),
          ("stderr", .pstr p.stderr)]

/-- The executor environment induced by one `get_smartctl` scenario: the
`smartctl` body returns its structured payload, or raises whatever
`get_smartctl` raises. -/
def smartExecEnv (connOpen : Bool) (env : SmartEnv) : ExecEnv :=
  ⟨fun d => (getSmartctl connOpen env d).map SmartPayload.toVal, .ok .pnone, .ok .pnone⟩

/-- C6: a nonzero diagnostic-tool exit is delivered as the normal structured
`smartctl` payload with `exitcode` and `stderr` populated and `status` null —
exactly one `smartctl`-tagged response, not an `error` response (the refresh
step, the only aborting path, runs only on zero exit); and a zero exit whose
record refresh completes and whose inventory status push is attempted but
fails is reflected only as `updated:false` in the same normal payload, never
surfaced as a client-visible error. -/
theorem smartctl_failure_reporting (connOpen : Bool) (env : SmartEnv) (dev : String) :
    (env.exitcode ≠ 0 →
      getSmartctl connOpen env dev =
        .ok ⟨dev, none, false, env.exitcode, env.output, env.stderr⟩ ∧
      runThread (smartExecEnv connOpen env) "smartctl" dev =
        [⟨"smartctl", some (SmartPayload.toVal
          ⟨dev, none, false, env.exitcode, env.output, env.stderr⟩)⟩]) ∧
    (∀ d0, env.exitcode = 0 → env.tracked = some (some d0) →
      (updateDiskIfNeeded connOpen d0).2.2 = none →
      updateStatus (updateDiskIfNeeded connOpen d0).1 env.pushFails ≠ none →
      getSmartctl connOpen env dev =
        .ok ⟨dev, some "old", false, env.exitcode, env.output, env.stderr⟩ ∧
      runThread (smartExecEnv connOpen env) "smartctl" dev =
        [⟨"smartctl", some (SmartPayload.toVal
          ⟨dev, some "old", false, env.exitcode, env.output, env.stderr⟩)⟩]) := by
  have hexec : ∀ P, getSmartctl connOpen env dev = .ok P →
      runThread (smartExecEnv connOpen env) "smartctl" dev =
        [⟨"smartctl", some (SmartPayload.toVal P)⟩] := by
    intro P hP
    have h : execCommand (smartExecEnv connOpen env) "smartctl" dev =
        ((getSmartctl connOpen env dev).map SmartPayload.toVal).map
          (fun v => ⟨"smartctl", some v⟩) := rfl
    unfold runThread
    rw [h, hP]
    rfl
  constructor
  · intro hnz
    have hpay : getSmartctl connOpen env dev =
        .ok ⟨dev, none, false, env.exitcode, env.output, env.stderr⟩ := by
      unfold getSmartctl
      rw [if_neg hnz]
    exact ⟨hpay, hexec _ hpay⟩
  · intro d0 hz htr hupd hpush
    rcases hu : updateDiskIfNeeded connOpen d0 with ⟨d1, s1, e1⟩
    rw [hu] at hupd
    simp only at hupd
    subst hupd
    rcases hp : updateStatus d1 env.pushFails with _ | perr
    · rw [hu] at hpush
      simp only at hpush
      exact absurd hp hpush
    · have hpay : getSmartctl connOpen env dev =
          .ok ⟨dev, some "old", false, env.exitcode, env.output, env.stderr⟩ := by
        unfold getSmartctl
        rw [if_pos hz, htr]
        simp only [hu, hp, getSmartctlStatus]
      exact ⟨hpay, hexec _ hpay⟩

/-- An inventory whose serial lookup returns exactly one code. -/
def tOne : Tarallo := ⟨fun _ _ => ["X1"], fun c _ => c⟩

/-- A tracked record whose code is already resolved: its refresh completes
without raising, and its status push genuinely reaches the inventory call. -/
def dOne : Disk :=
  ⟨[("path", "/dev/sdw"), ("serial", "S9")], "/dev/sdw", some "X1", none, some tOne⟩

/-- Witness for C6: a nonzero-exit run, and a zero-exit run on a resolved
tracked record whose inventory push fails — both delivered as normal
`smartctl` payloads, the latter with `updated = false`. -/
theorem smartctl_failure_reporting_witness :
    (getSmartctl true ⟨2, "out", "err", none, false⟩ "/dev/sda" =
      .ok ⟨"/dev/sda", none, false, 2, "out", "err"⟩ ∧
     runThread (smartExecEnv true ⟨2, "out", "err", none, false⟩) "smartctl" "/dev/sda" =
      [⟨"smartctl", some (SmartPayload.toVal
        ⟨"/dev/sda", none, false, 2, "out", "err"⟩)⟩]) ∧
    (getSmartctl true ⟨0, "ok", "", some (some dOne), true⟩ "/dev/sdw" =
      .ok ⟨"/dev/sdw", some "old", false, 0, "ok", ""⟩ ∧
     runThread (smartExecEnv true ⟨0, "ok", "", some (some dOne), true⟩) "smartctl" "/dev/sdw" =
      [⟨"smartctl", some (SmartPayload.toVal
        ⟨"/dev/sdw", some "old", false, 0, "ok", ""⟩)⟩]) :=
  ⟨(smartctl_failure_reporting true ⟨2, "out", "err", none, false⟩ "/dev/sda").1
     (by decide),
   (smartctl_failure_reporting true ⟨0, "ok", "", some (some dOne), true⟩ "/dev/sdw").2
     dOne rfl rfl rfl (by decide)⟩

/-! ## `get_disks` lazy registry population (`CommandRunner.get_disks_to_send`) -/

/-- `serialize_disk`: the record's lsblk attributes together with the cached
code added under the `code` key (the source mutates the dictionary; here the
pair keeps both pieces). -/
def serializeDisk (d : Disk) : List (String × String) × Option String :=
  (d.lsblk, d.code)

/-- Construction of a `Disk` from the output of the enumerator scoped to one
device (`get_disks_to_send` lines 200-207): the first element of the output is
used; if the output is empty, `lsblk` stays an empty list and `__init__`'s
`"path" not in` check fires, so construction fails. -/
def constructFromEnum (out : List (List (String × String))) (tarallo : Option Tarallo) :
    Except PyError Disk :=
  match out with
  | x :: _ => Disk.init x tarallo
  | [] => .error (.typeError "lsblk did not provide path for this disk")

/-- The record an entry holds after the fill step: an incomplete entry gets
the record constructed from the scoped enumerator output (or nothing, when
construction fails); a complete entry keeps its record. -/
def fillEntry (enum : String → List (List (String × String)))
    (tarallo : Option Tarallo) (pe : String × Option Disk) : Option Disk :=
  match pe.2 with
  | none =>
    match constructFromEnum (enum pe.1) tarallo with
    | .ok d => some d
    | .error _ => none
  | some d => some d

/-- The scoped-enumerator invocations one entry causes: exactly its path when
its record is missing. -/
def entryCalls (pe : String × Option Disk) : List String :=
  match pe.2 with
  | none => [pe.1]
  | some _ => []

/-- The scoped-enumerator invocations a registry fragment causes. -/
def callsOf (reg : List (String × Option Disk)) : List String :=
  (reg.filter (fun pe => pe.2.isNone)).map Prod.fst

/-- Whether processing an entry aborts the `get_disks` pass: its (filled)
record's `update_disk_if_needed` refresh raises the escaping encoding
`TypeError`. -/
def entryAborts (connOpen : Bool) (enum : String → List (List (String × String)))
    (tarallo : Option Tarallo) (pe : String × Option Disk) : Bool :=
  match fillEntry enum tarallo pe with
  | some d => ((updateDiskIfNeeded connOpen d).2.2).isSome
  | none => false

/-- The outcome of one `get_disks` invocation over the registry: the new
registry contents, the device paths the scoped enumerator was invoked for,
the reply (the serialized records — `none` when the pass aborted and nothing
is returned), and the escaping exception, if any. -/
structure GdtsResult where
  registry : List (String × Option Disk)
  calls : List String
  reply : Option (List (List (String × String) × Option String))
  raised : Option PyError

/-- `CommandRunner.get_disks_to_send`: iterate the registry in insertion
order; for an entry whose record is `None`, invoke the enumerator scoped to
that single path and try to construct a record (failure is logged and the
entry stays `None`); every entry holding a record is refreshed through
`update_disk_if_needed` — an exception escaping the refresh (the encoding
`TypeError` of the surfacing path) propagates out of the loop: the registry
mutations made so far persist, later entries are untouched, and the partial
result list is discarded — and on the normal path the refreshed record is
serialized into the reply. -/
def getDisksToSend (connOpen : Bool) (enum : String → List (List (String × String)))
    (tarallo : Option Tarallo) :
    List (String × Option Disk) → GdtsResult
  | [] => ⟨[], [], some [], none⟩
  | pe :: rest =>
    match fillEntry enum tarallo pe with
    | none =>
      let r := getDisksToSend connOpen enum tarallo rest
      ⟨(pe.1, none) :: r.registry, entryCalls pe ++ r.calls, r.reply, r.raised⟩
    | some d =>
      match updateDiskIfNeeded connOpen d with
      | (d1, _, none) =>
        let r := getDisksToSend connOpen enum tarallo rest
        ⟨(pe.1, some d1) :: r.registry, entryCalls pe ++ r.calls,
          r.reply.map (fun l => serializeDisk d1 :: l), r.raised⟩
      | (d1, _, some e) =>
        ⟨(pe.1, some d1) :: rest, entryCalls pe, none, some e⟩

/-- The per-entry effect of one `get_disks` pass that reaches the entry: an
incomplete entry is filled with the constructed-and-refreshed record when
construction succeeds and stays empty when it fails; a complete entry is
refreshed in place. -/
def lazyFill (connOpen : Bool) (enum : String → List (List (String × String)))
    (tarallo : Option Tarallo) (pe : String × Option Disk) : String × Option Disk :=
  match fillEntry enum tarallo pe with
  | some d => (pe.1, some (updateDiskIfNeeded connOpen d).1)
  | none => (pe.1, none)

lemma callsOf_cons (pe : String × Option Disk) (l : List (String × Option Disk)) :
    callsOf (pe :: l) = entryCalls pe ++ callsOf l := by
  rcases pe with ⟨p, _ | d⟩ <;> simp [callsOf, entryCalls, List.filter_cons]

lemma lazyFill_none {enum tarallo pe} (hf : fillEntry enum tarallo pe = none)
    (connOpen : Bool) : lazyFill connOpen enum tarallo pe = (pe.1, none) := by
  unfold lazyFill
  rw [hf]

lemma lazyFill_some {enum tarallo pe d} (hf : fillEntry enum tarallo pe = some d)
    (connOpen : Bool) :
    lazyFill connOpen enum tarallo pe = (pe.1, some (updateDiskIfNeeded connOpen d).1) := by
  unfold lazyFill
  rw [hf]

lemma gd_noabort (connOpen : Bool) (enum : String → List (List (String × String)))
    (tarallo : Option Tarallo) :
    ∀ reg : List (String × Option Disk),
    (∀ pe ∈ reg, entryAborts connOpen enum tarallo pe = false) →
    (getDisksToSend connOpen enum tarallo reg).calls = callsOf reg ∧
    (getDisksToSend connOpen enum tarallo reg).registry =
      reg.map (lazyFill connOpen enum tarallo) ∧
    (getDisksToSend connOpen enum tarallo reg).reply =
      some ((reg.map (lazyFill connOpen enum tarallo)).filterMap
        (fun pe => pe.2.map serializeDisk)) ∧
    (getDisksToSend connOpen enum tarallo reg).raised = none := by
  intro reg
  induction reg with
  | nil => exact fun _ => ⟨rfl, rfl, rfl, rfl⟩
  | cons pe rest ih =>
    intro hno
    have hpe := hno pe (List.mem_cons_self pe rest)
    obtain ⟨hc, hr, hp, hz⟩ := ih (fun q hq => hno q (List.mem_cons_of_mem pe hq))
    rcases hf : fillEntry enum tarallo pe with _ | d
    · simp only [getDisksToSend, hf]
      refine ⟨?_, ?_, ?_, hz⟩
      · rw [callsOf_cons, hc]
      · rw [List.map_cons, hr, lazyFill_none hf]
      · rw [List.map_cons, List.filterMap_cons, lazyFill_none hf]
        exact hp
    · rcases hu : updateDiskIfNeeded connOpen d with ⟨d1, s1, e1⟩
      simp only [entryAborts, hf, hu, Option.isSome] at hpe
      cases e1 with
      | some e => simp at hpe
      | none =>
        simp only [getDisksToSend, hf, hu]
        refine ⟨?_, ?_, ?_, hz⟩
        · rw [callsOf_cons, hc]
        · rw [List.map_cons, hr, lazyFill_some hf, hu]
        · rw [List.map_cons, List.filterMap_cons, lazyFill_some hf, hu, hp]
          rfl

lemma gd_abort (connOpen : Bool) (enum : String → List (List (String × String)))
    (tarallo : Option Tarallo) :
    ∀ (pre : List (String × Option Disk)) (pe : String × Option Disk)
      (post : List (String × Option Disk)),
    (∀ q ∈ pre, entryAborts connOpen enum tarallo q = false) →
    entryAborts connOpen enum tarallo pe = true →
    (getDisksToSend connOpen enum tarallo (pre ++ pe :: post)).calls =
      callsOf (pre ++ [pe]) ∧
    (getDisksToSend connOpen enum tarallo (pre ++ pe :: post)).registry =
      pre.map (lazyFill connOpen enum tarallo) ++
        lazyFill connOpen enum tarallo pe :: post ∧
    (getDisksToSend connOpen enum tarallo (pre ++ pe :: post)).reply = none ∧
    ((getDisksToSend connOpen enum tarallo (pre ++ pe :: post)).raised).isSome = true := by
  intro pre
  induction pre with
  | nil =>
    intro pe post _ habort
    rcases hf : fillEntry enum tarallo pe with _ | d
    · simp [entryAborts, hf] at habort
    · rcases hu : updateDiskIfNeeded connOpen d with ⟨d1, s1, e1⟩
      simp only [entryAborts, hf, hu] at habort
      cases e1 with
      | none => simp at habort
      | some e =>
        have heq : getDisksToSend connOpen enum tarallo ([] ++ pe :: post) =
            ⟨(pe.1, some d1) :: post, entryCalls pe, none, some e⟩ := by
          show getDisksToSend connOpen enum tarallo (pe :: post) = _
          simp only [getDisksToSend, hf, hu]
        rw [heq]
        refine ⟨?_, ?_, rfl, rfl⟩
        · show entryCalls pe = callsOf (pe :: [])
          rw [callsOf_cons]
          simp [callsOf]
        · show (pe.1, some d1) :: post = lazyFill connOpen enum tarallo pe :: post
          rw [lazyFill_some hf connOpen, hu]
  | cons q pre ih =>
    intro pe post hpre habort
    have hq := hpre q (List.mem_cons_self q pre)
    obtain ⟨hc, hr, hp, hz⟩ :=
      ih pe post (fun r hr => hpre r (List.mem_cons_of_mem q hr)) habort
    rcases hf : fillEntry enum tarallo q with _ | d
    · have heq : getDisksToSend connOpen enum tarallo ((q :: pre) ++ pe :: post) =
          ⟨(q.1, none) ::
             (getDisksToSend connOpen enum tarallo (pre ++ pe :: post)).registry,
           entryCalls q ++
             (getDisksToSend connOpen enum tarallo (pre ++ pe :: post)).calls,
           (getDisksToSend connOpen enum tarallo (pre ++ pe :: post)).reply,
           (getDisksToSend connOpen enum tarallo (pre ++ pe :: post)).raised⟩ := by
        show getDisksToSend connOpen enum tarallo (q :: (pre ++ pe :: post)) = _
        simp only [getDisksToSend, hf]
      rw [heq]
      refine ⟨?_, ?_, hp, hz⟩
      · show entryCalls q ++
            (getDisksToSend connOpen enum tarallo (pre ++ pe :: post)).calls =
          callsOf (q :: (pre ++ [pe]))
        rw [hc, callsOf_cons]
      · show (q.1, none) ::
            (getDisksToSend connOpen enum tarallo (pre ++ pe :: post)).registry =
          lazyFill connOpen enum tarallo q ::
            (pre.map (lazyFill connOpen enum tarallo) ++
              lazyFill connOpen enum tarallo pe :: post)
        rw [hr, lazyFill_none hf connOpen]
    · rcases hu : updateDiskIfNeeded connOpen d with ⟨d1, s1, e1⟩
      simp only [entryAborts, hf, hu] at hq
      cases e1 with
      | some e => simp at hq
      | none =>
        have heq : getDisksToSend connOpen enum tarallo ((q :: pre) ++ pe :: post) =
            ⟨(q.1, some d1) ::
               (getDisksToSend connOpen enum tarallo (pre ++ pe :: post)).registry,
             entryCalls q ++
               (getDisksToSend connOpen enum tarallo (pre ++ pe :: post)).calls,
             ((getDisksToSend connOpen enum tarallo (pre ++ pe :: post)).reply).map
               (fun l => serializeDisk d1 :: l),
             (getDisksToSend connOpen enum tarallo (pre ++ pe :: post)).raised⟩ := by
          show getDisksToSend connOpen enum tarallo (q :: (pre ++ pe :: post)) = _
          simp only [getDisksToSend, hf, hu]
        rw [heq]
        refine ⟨?_, ?_, ?_, hz⟩
        · show entryCalls q ++
              (getDisksToSend connOpen enum tarallo (pre ++ pe :: post)).calls =
            callsOf (q :: (pre ++ [pe]))
          rw [hc, callsOf_cons]
        · show (q.1, some d1) ::
              (getDisksToSend connOpen enum tarallo (pre ++ pe :: post)).registry =
            lazyFill connOpen enum tarallo q ::
              (pre.map (lazyFill connOpen enum tarallo) ++
                lazyFill connOpen enum tarallo pe :: post)
          rw [hr, lazyFill_some hf connOpen, hu]
        · show ((getDisksToSend connOpen enum tarallo (pre ++ pe :: post)).reply).map
              (fun l => serializeDisk d1 :: l) = none
          rw [hp]
          rfl

/-- C7 (amended): when `get_disks` runs, as long as the pass reaches an
entry, the scoped enumerator is invoked exactly for the device paths lacking
a record, and each such path gets the record constructed from its
single-device output stored when construction succeeds (when it fails the
entry stays empty and the failure is only logged); but a reached record whose
refresh raises (the escaping encoding `TypeError` of the ambiguous-serial
surfacing with the connection open) aborts the pass: entries after it are
untouched — incomplete ones are never enumerated — and no reply is
produced. -/
theorem get_disks_lazy_population (connOpen : Bool)
    (enum : String → List (List (String × String)))
    (tarallo : Option Tarallo) (reg : List (String × Option Disk)) :
    ((∀ pe ∈ reg, entryAborts connOpen enum tarallo pe = false) →
      (getDisksToSend connOpen enum tarallo reg).calls = callsOf reg ∧
      (getDisksToSend connOpen enum tarallo reg).registry =
        reg.map (lazyFill connOpen enum tarallo) ∧
      (getDisksToSend connOpen enum tarallo reg).reply =
        some ((reg.map (lazyFill connOpen enum tarallo)).filterMap
          (fun pe => pe.2.map serializeDisk)) ∧
      (getDisksToSend connOpen enum tarallo reg).raised = none) ∧
    (∀ pre pe post, reg = pre ++ pe :: post →
      (∀ q ∈ pre, entryAborts connOpen enum tarallo q = false) →
      entryAborts connOpen enum tarallo pe = true →
      (getDisksToSend connOpen enum tarallo reg).calls = callsOf (pre ++ [pe]) ∧
      (getDisksToSend connOpen enum tarallo reg).registry =
        pre.map (lazyFill connOpen enum tarallo) ++
          lazyFill connOpen enum tarallo pe :: post ∧
      (getDisksToSend connOpen enum tarallo reg).reply = none ∧
      ((getDisksToSend connOpen enum tarallo reg).raised).isSome = true) :=
  ⟨gd_noabort connOpen enum tarallo reg,
   fun pre pe post hsplit hpre habort => by
     subst hsplit
     exact gd_abort connOpen enum tarallo pre pe post hpre habort⟩

/-- Enumerator returning, for any path, a single device whose data has a path
but no serial. -/
def enumNoSerial : String → List (List (String × String)) :=
  fun p => [[("path", p)]]

/-- The `get_disks` pass over a registry with one incomplete entry whose
enumeration lacks a serial while inventory integration is enabled. -/
def gdtsCex : GdtsResult :=
  getDisksToSend true enumNoSerial (some tDup) [("/dev/sdc", none)]

/-- C7 counterexample: the enumerator is invoked scoped to the incomplete
entry's path, but no disk record is stored — construction fails (inventory
enabled, no serial: `KeyError`), the entry remains `None` and the reply
serializes nothing — refuting the claim that a record is always constructed
and stored for every incomplete path. -/
theorem get_disks_lazy_population_cex :
    gdtsCex.calls = ["/dev/sdc"] ∧
    gdtsCex.registry = [("/dev/sdc", none)] ∧
    gdtsCex.reply = some [] :=
  ⟨rfl, rfl, rfl⟩

/-- Enumerator returning, for any path, the ambiguous-serial device data. -/
def enumDup : String → List (List (String × String)) :=
  fun _ => [lsDup]

/-- A one-entry incomplete registry. -/
def regW1 : List (String × Option Disk) := [("/dev/sda", none)]

/-- A registry whose first entry holds an ambiguous unresolved record and
whose second entry is incomplete. -/
def regW2 : List (String × Option Disk) :=
  [("/dev/sda", some dDup), ("/dev/sdc", none)]

/-- Witness for C7: with the connection closed the ambiguous record's refresh
does not abort and the pass completes (construction stored, reply produced);
with the connection open the first entry's refresh aborts the pass — the
later incomplete entry is never enumerated and no reply is produced. -/
theorem get_disks_lazy_population_witness :
    ((getDisksToSend false enumDup (some tDup) regW1).calls = callsOf regW1 ∧
     (getDisksToSend false enumDup (some tDup) regW1).registry =
       regW1.map (lazyFill false enumDup (some tDup)) ∧
     (getDisksToSend false enumDup (some tDup) regW1).reply =
       some ((regW1.map (lazyFill false enumDup (some tDup))).filterMap
         (fun pe => pe.2.map serializeDisk)) ∧
     (getDisksToSend false enumDup (some tDup) regW1).raised = none) ∧
    ((getDisksToSend true enumDup (some tDup) regW2).calls = callsOf [] ++ [] ∧
     (getDisksToSend true enumDup (some tDup) regW2).reply = none ∧
     ((getDisksToSend true enumDup (some tDup) regW2).raised).isSome = true) :=
  ⟨(get_disks_lazy_population false enumDup (some tDup) regW1).1 (by decide),
   by
     have h := (get_disks_lazy_population true enumDup (some tDup) regW2).2
       [] ("/dev/sda", some dDup) [("/dev/sdc", none)] rfl (by decide) (by decide)
     exact ⟨by rw [h.1]; decide, h.2.2.1, h.2.2.2⟩⟩

/-! ## `get_disks_win`: positional zip of two listings -/

/-- Python `str.rstrip()` (ASCII whitespace, including vertical tab and form
feed), modelled at character level. -/
def pyRstrip (s : String) : String :=
  String.mk ((s.data.reverse.dropWhile
    (fun c => c == ' ' || c == '\t' || c == '\n' || c == '\r' ||
      c == Char.ofNat 11 || c == Char.ofNat 12)).reverse)

/-- Label extraction in `get_disks_win`: every output line of the caption
listing whose rstripped form is neither `Caption` nor empty contributes its
rstripped form. -/
def winLabels : List String → List String
  | [] => []
  | l :: ls =>
    if pyRstrip l ≠ "Caption" ∧ pyRstrip l ≠ "" then pyRstrip l :: winLabels ls
    else winLabels ls

/-- Size extraction in `get_disks_win`: every output line of the size listing
whose rstripped form is neither `Size` nor empty contributes the line itself
(not rstripped — faithful to the source). -/
def winSizes : List String → List String
  | [] => []
  | l :: ls =>
    if pyRstrip l ≠ "Size" ∧ pyRstrip l ≠ "" then l :: winSizes ls
    else winSizes ls

/-- The loop `for idx, line in enumerate(size): drive += [[label[idx], line]]`:
walks the size list with a running index into the label list; an index beyond
the label list raises `IndexError`, aborting the whole call. -/
def zipDrivesAux (label : List String) : Nat → List String → Except PyError (List (List String))
  | _, [] => .ok []
  | idx, l :: ls =>
    match label.get? idx with
    | none => .error (.indexError "list index out of range")
    | some lab =>
      match zipDrivesAux label (idx + 1) ls with
      | .ok rest => .ok ([lab, l] :: rest)
      | .error e => .error e

/-- `get_disks_win`: build the label and size lists from the two listing
outputs, then zip them positionally by index. -/
def getDisksWin (capLines sizeLines : List String) : Except PyError (List (List String)) :=
  zipDrivesAux (winLabels capLines) 0 (winSizes sizeLines)

lemma zipDrivesAux_spec (label : List String) (sizes : List String) (idx : Nat) :
    zipDrivesAux label idx sizes =
      (if sizes.length ≤ label.length - idx then
        .ok ((((label.drop idx).take sizes.length).zip sizes).map
          (fun q => [q.1, q.2]))
      else .error (.indexError "list index out of range")) := by
  induction sizes generalizing idx with
  | nil => simp [zipDrivesAux]
  | cons l ls ih =>
    by_cases hlt : idx < label.length
    · have hget : label.get? idx = some (label.get ⟨idx, hlt⟩) := List.get?_eq_get hlt
      have hdrop : label.drop idx = label.get ⟨idx, hlt⟩ :: label.drop (idx + 1) :=
        (List.getElem_cons_drop label idx hlt).symm
      simp only [zipDrivesAux, hget, ih (idx + 1)]
      by_cases hle : ls.length ≤ label.length - (idx + 1)
      · have hle' : (l :: ls).length ≤ label.length - idx := by
          simp only [List.length_cons]; omega
        simp only [hle, if_true, hle', if_true, hdrop, List.length_cons,
          List.take_succ_cons, List.zip_cons_cons, List.map_cons]
        rw [if_pos (show ls.length + 1 ≤ label.length - idx by omega)]
      · have hle' : ¬ (l :: ls).length ≤ label.length - idx := by
          simp only [List.length_cons]; omega
        simp only [hle, if_false, hle', if_false]
    · have hget : label.get? idx = none := by
        rw [List.get?_eq_none]
        omega
      have hle' : ¬ (l :: ls).length ≤ label.length - idx := by
        simp only [List.length_cons]; omega
      simp only [zipDrivesAux, hget, hle', if_false]

/-- C10: for every pair of listing outputs, `get_disks_win` returns one
`[label, size]` pair per extracted size line — so the result's length equals
the size list's and labels beyond that length are silently dropped — and
whenever the size list is strictly longer than the label list it fails with
an out-of-range index error instead of returning a result. -/
theorem get_disks_win_shape (capLines sizeLines : List String) :
    getDisksWin capLines sizeLines =
      (if (winSizes sizeLines).length ≤ (winLabels capLines).length then
        .ok ((((winLabels capLines).take (winSizes sizeLines).length).zip
          (winSizes sizeLines)).map (fun q => [q.1, q.2]))
      else .error (.indexError "list index out of range")) ∧
    ((winSizes sizeLines).length ≤ (winLabels capLines).length →
      ∀ drives, getDisksWin capLines sizeLines = .ok drives →
        drives.length = (winSizes sizeLines).length) := by
  have h := zipDrivesAux_spec (winLabels capLines) (winSizes sizeLines) 0
  simp only [List.drop_zero, Nat.sub_zero] at h
  refine ⟨h, ?_⟩
  intro hle drives hok
  rw [getDisksWin] at hok
  rw [h, if_pos hle] at hok
  have hd := (Except.ok.injEq _ _).mp hok.symm
  rw [hd, List.length_map, List.length_zip, List.length_take]
  omega

/-- Witness for C10: a concrete run in each regime — equal-or-shorter size
list returns the positional zip; longer size list fails with the index
error. -/
theorem get_disks_win_shape_witness :
    getDisksWin ["Caption", "C:  ", "D:  ", "E:  "] ["Size", "100", "200"] =
      .ok [["C:", "100"], ["D:", "200"]] ∧
    getDisksWin ["Caption", "C:  "] ["Size", "100", "200"] =
      .error (.indexError "list index out of range") := by
  have h1 := (get_disks_win_shape ["Caption", "C:  ", "D:  ", "E:  "] ["Size", "100", "200"]).1
  have h2 := (get_disks_win_shape ["Caption", "C:  "] ["Size", "100", "200"]).1
  constructor
  · rw [h1]
    rfl
  · rw [h2]
    rfl

/-! ## Offline classification tool (`pestello.py`) -/

/-- The operator's disposition answer for one report:
`k` = OK, `o` = OLD, `f` = FAIL, `x` = discard. -/
inductive Ans where
  | k
  | o
  | f
  | x
  deriving DecidableEq

/-- One parsed report: the attribute dictionary extracted by `parse_file`
(insertion-ordered, as built while scanning the file) and the operator's
final answer at the disposition prompt. -/
structure Report where
  found : List (String × String)
  ans : Ans
  deriving DecidableEq

/-- Python dict assignment `d[k] = v` on an insertion-ordered dictionary:
replace in place when the key exists, else append. -/
def dictSet (d : List (String × String)) (k v : String) : List (String × String) :=
  if (d.lookup k).isSome then d.map (fun q => if q.1 == k then (k, v) else q)
  else d ++ [(k, v)]

/-- The disposition prompt at the end of `parse_file`: `k`/`o`/`f` set
`found['Status']` and append the dict to `results`; `x` appends nothing. -/
def promptStep (found : List (String × String)) (a : Ans)
    (results : List (List (String × String))) : List (List (String × String)) :=
  match a with
  | .k => results ++ [dictSet found "Status" "OK"]
  | .o => results ++ [dictSet found "Status" "OLD"]
  | .f => results ++ [dictSet found "Status" "FAIL"]
  | .x => results

/-- The accumulation part of `parse_file` (lines 124-165): a report whose
serial number was already seen is skipped entirely; otherwise its serial is
recorded (before the prompt, so even a later-discarded report blocks its
duplicates) and the disposition prompt runs. State is
(results, seen serials). -/
def parseReport (acc : List (List (String × String)) × List String) (r : Report) :
    List (List (String × String)) × List String :=
  match r.found.lookup "Serial_Number" with
  | some sn =>
    if sn ∈ acc.2 then acc
    else (promptStep r.found r.ans acc.1, sn :: acc.2)
  | none => (promptStep r.found r.ans acc.1, acc.2)

/-- Header construction in `get_files` (lines 36-44): walk the results in
order, appending each key other than `Status` on first sight, then append the
trailing `Status` column. -/
def buildHeader (results : List (List (String × String))) : List String :=
  (results.foldl
    (fun h result =>
      result.foldl
        (fun h2 kv => if kv.1 ≠ "Status" ∧ kv.1 ∉ h2 then h2 ++ [kv.1] else h2) h)
    []) ++ ["Status"]

/-- `get_files` over already-parsed reports: accumulate the labeled results,
then build the CSV header; the CSV gets one data row per element of
`results`. -/
def getFiles (reports : List Report) : List (List (String × String)) × List String :=
  ((reports.foldl parseReport ([], [])).1,
   buildHeader (reports.foldl parseReport ([], [])).1)

/-- The rows the tool keeps, described directly: one row per report that is
not a duplicate of an earlier serial and is given a non-discard disposition,
carrying its `Status` value; serials are recorded even for discarded
reports. -/
def keptRows : List Report → List String → List (List (String × String))
  | [], _ => []
  | r :: rs, seen =>
    match r.found.lookup "Serial_Number" with
    | some sn =>
      if sn ∈ seen then keptRows rs seen
      else
        match r.ans with
        | .k => dictSet r.found "Status" "OK" :: keptRows rs (sn :: seen)
        | .o => dictSet r.found "Status" "OLD" :: keptRows rs (sn :: seen)
        | .f => dictSet r.found "Status" "FAIL" :: keptRows rs (sn :: seen)
        | .x => keptRows rs (sn :: seen)
    | none =>
      match r.ans with
      | .k => dictSet r.found "Status" "OK" :: keptRows rs seen
      | .o => dictSet r.found "Status" "OLD" :: keptRows rs seen
      | .f => dictSet r.found "Status" "FAIL" :: keptRows rs seen
      | .x => keptRows rs seen

/-- The serial set after processing a list of reports. -/
def seenAfter : List Report → List String → List String
  | [], seen => seen
  | r :: rs, seen =>
    match r.found.lookup "Serial_Number" with
    | some sn => if sn ∈ seen then seenAfter rs seen else seenAfter rs (sn :: seen)
    | none => seenAfter rs seen

/-- First-seen-order deduplicated union of a key sequence, accumulated left
to right. -/
def firstSeenDedup : List String → List String → List String
  | [], acc => acc
  | k :: ks, acc =>
    if k ∈ acc then firstSeenDedup ks acc else firstSeenDedup ks (acc ++ [k])

/-- The non-`Status` attribute names of one row, in dictionary order. -/
def rowKeys (row : List (String × String)) : List String :=
  (row.map Prod.fst).filter (fun k => k ≠ "Status")

/-- The header described directly: the first-seen-ordered union of attribute
names over the given rows, plus the trailing `Status` column. -/
def headerOfRows (rows : List (List (String × String))) : List String :=
  firstSeenDedup (rows.map rowKeys).flatten [] ++ ["Status"]

/-- The header as the claim's words state it, for comparison with the
implementation: the first-seen-ordered union of attribute names across ALL
processed reports — including reports given the discard disposition — plus
the trailing `Status` column. -/
def headerClaimAllProcessed (reports : List Report) : List String :=
  firstSeenDedup (reports.map (fun r => rowKeys r.found)).flatten [] ++ ["Status"]

lemma foldl_parseReport (rs : List Report) (res : List (List (String × String)))
    (seen : List String) :
    rs.foldl parseReport (res, seen) = (res ++ keptRows rs seen, seenAfter rs seen) := by
  induction rs generalizing res seen with
  | nil => simp [keptRows, seenAfter]
  | cons r rs ih =>
    simp only [List.foldl_cons]
    cases hl : r.found.lookup "Serial_Number" with
    | some sn =>
      by_cases hm : sn ∈ seen
      · simp only [parseReport, hl, hm, if_true, keptRows, seenAfter, ih]
      · cases ha : r.ans <;>
          simp [parseReport, promptStep, hl, hm, keptRows, seenAfter, ha, ih]
    | none =>
      cases ha : r.ans <;>
        simp [parseReport, promptStep, hl, keptRows, seenAfter, ha, ih]

lemma firstSeenDedup_append (xs ys : List String) (acc : List String) :
    firstSeenDedup (xs ++ ys) acc = firstSeenDedup ys (firstSeenDedup xs acc) := by
  induction xs generalizing acc with
  | nil => rfl
  | cons k ks ih =>
    simp only [List.cons_append, firstSeenDedup]
    by_cases hk : k ∈ acc <;> simp [hk, ih]

lemma rowKeys_cons (kv : String × String) (row : List (String × String)) :
    rowKeys (kv :: row) =
      (if kv.1 = "Status" then rowKeys row else kv.1 :: rowKeys row) := by
  simp only [rowKeys, List.map_cons, List.filter_cons]
  by_cases hst : kv.1 = "Status" <;> simp [hst]

lemma rowFold_eq_dedup (row : List (String × String)) (h : List String) :
    row.foldl
      (fun h2 kv => if kv.1 ≠ "Status" ∧ kv.1 ∉ h2 then h2 ++ [kv.1] else h2) h =
    firstSeenDedup (rowKeys row) h := by
  induction row generalizing h with
  | nil => rfl
  | cons kv row ih =>
    simp only [List.foldl_cons, rowKeys_cons]
    by_cases hst : kv.1 = "Status"
    · rw [if_pos hst,
        if_neg (show ¬(kv.1 ≠ "Status" ∧ kv.1 ∉ h) from by simp [hst])]
      exact ih h
    · rw [if_neg hst]
      by_cases hmem : kv.1 ∈ h
      · simp only [firstSeenDedup]
        rw [if_neg (show ¬(kv.1 ≠ "Status" ∧ kv.1 ∉ h) from by simp [hmem]),
          if_pos hmem]
        exact ih h
      · simp only [firstSeenDedup]
        rw [if_pos (show kv.1 ≠ "Status" ∧ kv.1 ∉ h from ⟨hst, hmem⟩),
          if_neg hmem]
        exact ih (h ++ [kv.1])

lemma buildHeader_eq (rows : List (List (String × String))) :
    buildHeader rows = headerOfRows rows := by
  unfold buildHeader headerOfRows
  congr 1
  have : ∀ (rs : List (List (String × String))) (h : List String),
      rs.foldl
        (fun h result =>
          result.foldl
            (fun h2 kv => if kv.1 ≠ "Status" ∧ kv.1 ∉ h2 then h2 ++ [kv.1] else h2) h)
        h = firstSeenDedup (rs.map rowKeys).flatten h := by
    intro rs
    induction rs with
    | nil => intro h; rfl
    | cons row rs ih =>
      intro h
      simp only [List.foldl_cons, List.map_cons, List.flatten_cons, firstSeenDedup_append]
      rw [rowFold_eq_dedup, ih]
  exact this rows []

/-- C8 (amended): the tool's output has exactly one CSV data row per report
given a non-discarded disposition (discarded and duplicate-serial reports
produce no row), each carrying its `Status` value, and the header is the
first-seen-ordered union of attribute names across the rows actually written
— not across all processed reports — plus a trailing `Status` column. -/
theorem pestello_rows_and_header (reports : List Report) :
    (getFiles reports).1 = keptRows reports [] ∧
    (getFiles reports).2 = headerOfRows (keptRows reports []) := by
  have hfold := foldl_parseReport reports [] []
  constructor
  · show (reports.foldl parseReport ([], [])).1 = keptRows reports []
    rw [hfold]
    rfl
  · show buildHeader (reports.foldl parseReport ([], [])).1 =
      headerOfRows (keptRows reports [])
    rw [hfold]
    exact buildHeader_eq (keptRows reports [])

/-- A report that the operator discards, carrying an attribute
(`Model_Family`) that no kept report carries. -/
def repA : Report :=
  ⟨[("Model_Family", "WD Blue"), ("Serial_Number", "S1"), ("Errors_UNC", "0")], .x⟩

/-- A report the operator labels OK. -/
def repB : Report := ⟨[("Serial_Number", "S2"), ("Errors_UNC", "0")], .k⟩

/-- C8 counterexample: with a discarded report contributing attribute
`Model_Family`, the produced header omits it — the header is built only from
the kept rows, so it is not the union of attribute names across all processed
reports; the row count per non-discarded disposition is nevertheless one. -/
theorem pestello_header_cex :
    (getFiles [repA, repB]).2 = ["Serial_Number", "Errors_UNC", "Status"] ∧
    headerClaimAllProcessed [repA, repB] =
      ["Model_Family", "Serial_Number", "Errors_UNC", "Status"] ∧
    (getFiles [repA, repB]).2 ≠ headerClaimAllProcessed [repA, repB] ∧
    (getFiles [repA, repB]).1 = [[("Serial_Number", "S2"), ("Errors_UNC", "0"),
      ("Status", "OK")]] := by
  refine ⟨rfl, rfl, ?_, rfl⟩
  decide

end Pesto
